import Mathlib

/-!
Shallow embedding of `src/mocks.py` (receptive-field computation for a
feed-forward stack of convolution/pooling-like layer descriptors), together
with theorems settling the specification claims about it.

Python integers are modelled as `Int` (arbitrary precision, no validation of
positivity, matching the source).  The in-place mutation of `MockModel.add`
is modelled by returning the updated model.  The text printed by the verbose
mode of `get_receptive_field` is modelled as an explicit list of output lines
returned alongside the result pair.
-/

/-- Embedding of the Python class `MockLayer`: an immutable record of
`kernel_size`, `stride`, `dilation_rate` and `name`. -/
structure MockLayer where
  kernel_size : Int
  stride : Int
  dilation_rate : Int
  name : String
deriving DecidableEq, Repr

/-- `MockLayer.get_as_list`: returns the layer inside a singleton list. -/
def MockLayer.get_as_list (l : MockLayer) : List MockLayer := [l]

/-- `MockLayer.get_output_receptive_field`: propagates the running
receptive field and accumulated stride through this layer.
Mirrors the source:
`kernel_term = (kernel_size - 1) * dilation_rate * input_accumulated_stride`,
`output_receptive_field = kernel_term + input_receptive_field`,
`output_accumulated_stride = input_accumulated_stride * stride`. -/
def MockLayer.get_output_receptive_field (l : MockLayer)
    (input_receptive_field input_accumulated_stride : Int) : Int × Int :=
  let kernel_term := (l.kernel_size - 1) * l.dilation_rate * input_accumulated_stride
  let output_receptive_field := kernel_term + input_receptive_field
  let output_accumulated_stride := input_accumulated_stride * l.stride
  (output_receptive_field, output_accumulated_stride)

/-- Embedding of the subclass constructor `MockConv`: same record shape,
all parameters passed through to `MockLayer`. -/
def MockConv (kernel_size stride dilation_rate : Int) (name : String) : MockLayer :=
  ⟨kernel_size, stride, dilation_rate, name⟩

/-- Embedding of the subclass constructor `MockPool`: the Python `stride`
parameter defaults to `None`, in which case `stride = pool_size`; the
dilation rate is fixed at `1`.  The optional argument is modelled as
`Option Int`, with `none` standing for the omitted / `None` stride. -/
def MockPool (pool_size : Int) (stride : Option Int) (name : String) : MockLayer :=
  ⟨pool_size, (match stride with | none => pool_size | some s => s), 1, name⟩

/-- Embedding of the Python class `MockModel`: an ordered list of layers. -/
structure MockModel where
  layers : List MockLayer
deriving DecidableEq, Repr

/-- `MockModel.get_as_list`: returns the model's own list of layers. -/
def MockModel.get_as_list (m : MockModel) : List MockLayer := m.layers

/-- The argument of `MockModel.add` is duck-typed in Python: anything with a
`get_as_list` method, i.e. a single `MockLayer` or a whole `MockModel`. -/
inductive Block where
  | layer : MockLayer → Block
  | model : MockModel → Block
deriving DecidableEq, Repr

/-- Dispatch of `get_as_list` over the two possible argument shapes of
`MockModel.add`. -/
def Block.get_as_list : Block → List MockLayer
  | Block.layer l => l.get_as_list
  | Block.model m => m.get_as_list

/-- `MockModel.add`: flattens the new block with `get_as_list` and extends
the model's layer list with it.  The Python method mutates `self.layers`
in place; here the updated model is returned. -/
def MockModel.add (m : MockModel) (new_block : Block) : MockModel :=
  ⟨m.layers ++ new_block.get_as_list⟩

/-- `MockModel.get_layer_names`: the names of the layers, in order. -/
def MockModel.get_layer_names (m : MockModel) : List String :=
  m.layers.map (fun layer => layer.name)

/-- Python's `str.ljust`: pad with spaces on the right up to the given
width (no truncation). -/
def ljust (s : String) (width : Nat) : String :=
  s ++ String.mk (List.replicate (width - s.length) ' ')

/-- The line printed for one layer by the verbose mode of
`get_receptive_field`:
`'Layer {} {} (k{}, s{}, d{}) Receptive field {}'` with the 1-based index,
the name left-justified to width 20, the three numeric fields and the
running receptive field. -/
def verboseLine (i : Nat) (l : MockLayer) (rf : Int) : String :=
  "Layer " ++ toString (i + 1) ++ " " ++ ljust l.name 20 ++
    " (k" ++ toString l.kernel_size ++ ", s" ++ toString l.stride ++
    ", d" ++ toString l.dilation_rate ++ ") Receptive field " ++ toString rf

/-- The loop state of `MockModel.get_receptive_field`: the two running
values, the accumulated list of intermediate receptive fields, the lines
printed so far, and the 0-based loop index from `enumerate`. -/
structure RFState where
  output_receptive_field : Int
  accumulated_stride : Int
  all_receptive_fields : List Int
  printed : List String
  idx : Nat
deriving Repr

/-- One iteration of the loop body of `MockModel.get_receptive_field`. -/
def rfStep (verbose : Bool) (st : RFState) (layer : MockLayer) : RFState :=
  let p := layer.get_output_receptive_field st.output_receptive_field st.accumulated_stride
  ⟨p.1, p.2, st.all_receptive_fields ++ [p.1],
    (if verbose then st.printed ++ [verboseLine st.idx layer p.1] else st.printed),
    st.idx + 1⟩

/-- `MockModel.get_receptive_field`: starting from receptive field 1 and
accumulated stride 1, folds every layer's `get_output_receptive_field`
over the layer list, collecting each intermediate receptive field.
Returns the pair the Python function returns, together with the list of
lines printed (empty unless `verbose`). -/
def MockModel.get_receptive_field (m : MockModel) (verbose : Bool) :
    (Int × List Int) × List String :=
  let final := m.layers.foldl (rfStep verbose) ⟨1, 1, [], [], 0⟩
  let printed := if verbose then final.printed ++ [""] else final.printed
  ((final.output_receptive_field, final.all_receptive_fields), printed)

/-- The specification's description of the algorithm of
`receptive_field`, as a structural recursion: a left-to-right fold that
threads the running receptive field and accumulated stride through each
layer's propagate and collects every intermediate receptive field.
Returns (final receptive field, final accumulated stride, the collected
intermediate receptive fields in layer order). -/
def rfFold : List MockLayer → Int → Int → Int × Int × List Int
  | [], r, a => (r, a, [])
  | l :: rest, r, a =>
    let p := l.get_output_receptive_field r a
    let tail := rfFold rest p.1 p.2
    (tail.1, tail.2.1, p.1 :: tail.2.2)

theorem rfStep_foldl_spec (v : Bool) (ls : List MockLayer) :
    ∀ (r a : Int) (acc : List Int) (out : List String) (i : Nat),
      (ls.foldl (rfStep v) ⟨r, a, acc, out, i⟩).output_receptive_field
          = (rfFold ls r a).1 ∧
      (ls.foldl (rfStep v) ⟨r, a, acc, out, i⟩).accumulated_stride
          = (rfFold ls r a).2.1 ∧
      (ls.foldl (rfStep v) ⟨r, a, acc, out, i⟩).all_receptive_fields
          = acc ++ (rfFold ls r a).2.2 := by
  induction ls with
  | nil => intro r a acc out i; simp [rfFold]
  | cons l rest ih =>
    intro r a acc out i
    have h := ih ((l.get_output_receptive_field r a).1)
      ((l.get_output_receptive_field r a).2)
      (acc ++ [(l.get_output_receptive_field r a).1])
      (if v then out ++ [verboseLine i l (l.get_output_receptive_field r a).1] else out)
      (i + 1)
    simp only [List.foldl_cons, rfFold]
    refine ⟨?_, ?_, ?_⟩
    · exact h.1
    · exact h.2.1
    · rw [show rfStep v ⟨r, a, acc, out, i⟩ l
          = ⟨(l.get_output_receptive_field r a).1, (l.get_output_receptive_field r a).2,
             acc ++ [(l.get_output_receptive_field r a).1],
             (if v then out ++ [verboseLine i l (l.get_output_receptive_field r a).1] else out),
             i + 1⟩ from rfl]
      rw [h.2.2]
      simp

theorem get_receptive_field_eq_rfFold (m : MockModel) (v : Bool) :
    (m.get_receptive_field v).1
      = ((rfFold m.layers 1 1).1, (rfFold m.layers 1 1).2.2) := by
  have h := rfStep_foldl_spec v m.layers 1 1 [] [] 0
  unfold MockModel.get_receptive_field
  simp only []
  rw [Prod.ext_iff]
  exact ⟨h.1, by simpa using h.2.2⟩

theorem rfFold_length (ls : List MockLayer) :
    ∀ r a : Int, (rfFold ls r a).2.2.length = ls.length := by
  induction ls with
  | nil => intro r a; simp [rfFold]
  | cons l rest ih => intro r a; simp [rfFold, ih]

/-- Claim C1: for every layer descriptor and every input pair,
`get_output_receptive_field` returns exactly
`((kernel_size - 1) * dilation_rate * input_accumulated_stride
   + input_receptive_field, input_accumulated_stride * stride)`,
as a pure function of the inputs and the descriptor's fields. -/
theorem claim_C1_propagate (l : MockLayer) (irf ias : Int) :
    l.get_output_receptive_field irf ias
      = ((l.kernel_size - 1) * l.dilation_rate * ias + irf, ias * l.stride) := rfl

/-- Claim C2: `get_receptive_field` computes the left-to-right fold over
the layers starting from receptive field 1 and accumulated stride 1,
threading each layer's propagate through the running pair and collecting
each new receptive field, so the returned pair is the final receptive
field together with a list having exactly one entry per layer in layer
order. -/
theorem claim_C2_fold (m : MockModel) (v : Bool) :
    (m.get_receptive_field v).1
        = ((rfFold m.layers 1 1).1, (rfFold m.layers 1 1).2.2) ∧
      (m.get_receptive_field v).1.2.length = m.layers.length := by
  refine ⟨get_receptive_field_eq_rfFold m v, ?_⟩
  rw [get_receptive_field_eq_rfFold m v]
  exact rfFold_length m.layers 1 1

/-- Claim C3: on a group whose layer list is empty,
`get_receptive_field` returns the pair `(1, [])`. -/
theorem claim_C3_empty (m : MockModel) (v : Bool) (h : m.layers = []) :
    (m.get_receptive_field v).1 = (1, ([] : List Int)) := by
  have := get_receptive_field_eq_rfFold m v
  rw [h] at this
  simpa [rfFold] using this

/-- Witness for claim C3 at the concrete empty model. -/
theorem claim_C3_empty_witness :
    (MockModel.mk []).layers = [] ∧
      ((MockModel.mk []).get_receptive_field false).1 = (1, ([] : List Int)) :=
  ⟨rfl, claim_C3_empty (MockModel.mk []) false rfl⟩

/-- Claim C4: for the two-layer group L1 = (k=3, s=2, d=1) then
L2 = (k=3, s=1, d=1), `get_receptive_field` returns exactly
`(7, [3, 7])` (for either verbose setting), and the accumulated stride
after both layers is 2. -/
theorem claim_C4_example :
    (∀ v : Bool,
      ((MockModel.mk [MockConv 3 2 1 "L1", MockConv 3 1 1 "L2"]).get_receptive_field v).1
        = (7, [3, 7])) ∧
      (rfFold [MockConv 3 2 1 "L1", MockConv 3 1 1 "L2"] 1 1).2.1 = 2 := by
  constructor
  · intro v; cases v <;> rfl
  · rfl

/-- Claim C5: for every positive `p`, the pooling preset built with
`pool_size = p` and no explicit stride has stride `p` and dilation rate 1,
and its propagate agrees with the plain descriptor `(p, p, 1)` on every
input pair. -/
theorem claim_C5_pool_equiv (p : Int) (hp : 0 < p) (nm : String) :
    (MockPool p none nm).stride = p ∧
      (MockPool p none nm).dilation_rate = 1 ∧
      ∀ irf ias : Int,
        (MockPool p none nm).get_output_receptive_field irf ias
          = (MockLayer.mk p p 1 nm).get_output_receptive_field irf ias :=
  ⟨rfl, rfl, fun _ _ => rfl⟩

/-- Witness for claim C5 at the spec's instance `p = 2`, with the
propagate agreement evaluated at the input pair `(1, 1)`. -/
theorem claim_C5_pool_equiv_witness :
    (0 : Int) < 2 ∧
      (MockPool 2 none "").stride = 2 ∧
      (MockPool 2 none "").dilation_rate = 1 ∧
      (MockPool 2 none "").get_output_receptive_field 1 1
        = (MockLayer.mk 2 2 1 "").get_output_receptive_field 1 1 :=
  ⟨by decide, (claim_C5_pool_equiv 2 (by decide) "").1,
    (claim_C5_pool_equiv 2 (by decide) "").2.1,
    (claim_C5_pool_equiv 2 (by decide) "").2.2 1 1⟩

theorem foldl_add_layers (ls : List MockLayer) :
    ∀ m : MockModel,
      (ls.foldl (fun acc l => acc.add (Block.layer l)) m).layers = m.layers ++ ls := by
  induction ls with
  | nil => intro m; simp
  | cons l rest ih =>
    intro m
    rw [List.foldl_cons, ih]
    simp [MockModel.add, Block.get_as_list, MockLayer.get_as_list]

theorem foldl_add_blocks (bs : List (List MockLayer)) :
    ∀ m : MockModel,
      (bs.foldl (fun acc b => acc.add (Block.model (MockModel.mk b))) m).layers
        = m.layers ++ bs.flatten := by
  induction bs with
  | nil => intro m; simp
  | cons b rest ih =>
    intro m
    rw [List.foldl_cons, ih]
    simp [MockModel.add, Block.get_as_list, MockModel.get_as_list]

/-- Claim C6: `add` is associative in effect: for every partition of a
layer sequence into consecutive blocks, adding each block (collected into
a sub-group) in order to an initially empty group yields the same
flattened layer sequence as adding the individual layers one at a time. -/
theorem claim_C6_add_assoc (blocks : List (List MockLayer)) :
    (blocks.foldl (fun acc b => acc.add (Block.model (MockModel.mk b)))
        (MockModel.mk [])).get_as_list
      = ((blocks.flatten).foldl (fun acc l => acc.add (Block.layer l))
        (MockModel.mk [])).get_as_list := by
  show (blocks.foldl (fun acc b => acc.add (Block.model (MockModel.mk b)))
      (MockModel.mk [])).layers
    = ((blocks.flatten).foldl (fun acc l => acc.add (Block.layer l))
      (MockModel.mk [])).layers
  rw [foldl_add_blocks, foldl_add_layers]

/-- Claim C7: `get_as_list` on a group returns the group's own layer list;
since the embedding is pure, any number of calls on the same unmutated
group returns this same sequence. -/
theorem claim_C7_flatten_idem (m : MockModel) : m.get_as_list = m.layers := rfl

/-- Claim C8: the verbose flag does not affect the returned pair of
`get_receptive_field`: for every group and every two verbose settings the
returned pairs are equal; verbose only changes the printed lines. -/
theorem claim_C8_verbose_independent (m : MockModel) (v₁ v₂ : Bool) :
    (m.get_receptive_field v₁).1 = (m.get_receptive_field v₂).1 := by
  rw [get_receptive_field_eq_rfFold m v₁, get_receptive_field_eq_rfFold m v₂]

/-- The numeric fields of a layer: (kernel size, stride, dilation rate). -/
def layerNums (l : MockLayer) : Int × Int × Int :=
  (l.kernel_size, l.stride, l.dilation_rate)

/-- Product of the strides of the first `i` layers. -/
def prefixStrideProd (ls : List MockLayer) (i : Nat) : Int :=
  ((ls.take i).map (fun l => l.stride)).prod

/-- The `i`-th summand of the closed form:
`(k_i - 1) * d_i * (product of s_j for j < i)`, and `0` past the end. -/
def rfTerm (ls : List MockLayer) (i : Nat) : Int :=
  match ls[i]? with
  | some l => (l.kernel_size - 1) * l.dilation_rate * prefixStrideProd ls i
  | none => 0

/-- The closed form truncated to the first `n` summands:
`1 + sum over i < n of (k_i - 1) * d_i * (product of s_j for j < i)`. -/
def closedPartial (ls : List MockLayer) (n : Nat) : Int :=
  1 + ((List.range n).map (rfTerm ls)).sum

/-- The full closed form of the receptive field of a layer stack. -/
def closedForm (ls : List MockLayer) : Int :=
  closedPartial ls ls.length

/-- Horner-style recursion equal to the sum of all `rfTerm` summands. -/
def hornerRF : List MockLayer → Int
  | [] => 0
  | l :: rest => (l.kernel_size - 1) * l.dilation_rate + l.stride * hornerRF rest

theorem rfTerm_cons (l : MockLayer) (ls : List MockLayer) (j : Nat) :
    rfTerm (l :: ls) (j + 1) = l.stride * rfTerm ls j := by
  unfold rfTerm
  have hp : prefixStrideProd (l :: ls) (j + 1) = l.stride * prefixStrideProd ls j := by
    simp [prefixStrideProd, List.take_succ_cons]
  cases h : ls[j]? with
  | none => simp [h]
  | some x =>
    simp only [List.getElem?_cons_succ, h, hp]
    ring

theorem hornerRF_eq_sum (ls : List MockLayer) :
    ∀ n : Nat, hornerRF (ls.take n) = ((List.range n).map (rfTerm ls)).sum := by
  induction ls with
  | nil =>
    intro n
    have h0 : (List.range n).map (rfTerm ([] : List MockLayer))
        = (List.range n).map (fun _ => (0 : Int)) :=
      List.map_congr_left (fun j _ => by simp [rfTerm])
    simp [hornerRF, h0]
  | cons l rest ih =>
    intro n
    cases n with
    | zero => simp [hornerRF]
    | succ n =>
      rw [List.take_succ_cons]
      show (l.kernel_size - 1) * l.dilation_rate + l.stride * hornerRF (rest.take n)
        = ((List.range (n + 1)).map (rfTerm (l :: rest))).sum
      rw [List.range_succ_eq_map, List.map_cons, List.sum_cons, List.map_map]
      have h0 : rfTerm (l :: rest) 0
          = (l.kernel_size - 1) * l.dilation_rate := by
        simp [rfTerm, prefixStrideProd]
      have hsh : (List.range n).map (rfTerm (l :: rest) ∘ Nat.succ)
          = (List.range n).map (fun j => l.stride * rfTerm rest j) := by
        refine List.map_congr_left ?_
        intro j _
        exact rfTerm_cons l rest j
      rw [h0, hsh, List.sum_map_mul_left, ih n]

theorem rfFold_rf_closed (ls : List MockLayer) :
    ∀ r a : Int, (rfFold ls r a).1 = r + a * hornerRF ls := by
  induction ls with
  | nil => intro r a; simp [rfFold, hornerRF]
  | cons l rest ih =>
    intro r a
    show (rfFold rest ((l.kernel_size - 1) * l.dilation_rate * a + r) (a * l.stride)).1
      = r + a * hornerRF (l :: rest)
    rw [ih]
    show (l.kernel_size - 1) * l.dilation_rate * a + r + a * l.stride * hornerRF rest
      = r + a * ((l.kernel_size - 1) * l.dilation_rate + l.stride * hornerRF rest)
    ring

theorem rfFold_rfs_getD (ls : List MockLayer) :
    ∀ (i : Nat) (r a : Int), i < ls.length →
      (rfFold ls r a).2.2.getD i 0 = (rfFold (ls.take (i + 1)) r a).1 := by
  induction ls with
  | nil => intro i r a hi; simp at hi
  | cons l rest ih =>
    intro i r a hi
    cases i with
    | zero => rfl
    | succ i =>
      have hlt : i < rest.length := by
        simpa using Nat.lt_of_succ_lt_succ hi
      show (rfFold rest (l.get_output_receptive_field r a).1
          (l.get_output_receptive_field r a).2).2.2.getD i 0
        = (rfFold (rest.take (i + 1)) (l.get_output_receptive_field r a).1
          (l.get_output_receptive_field r a).2).1
      exact ih i _ _ hlt

theorem rfFold_congr_nums (ls : List MockLayer) :
    ∀ ls₂ : List MockLayer, ls.map layerNums = ls₂.map layerNums →
      ∀ r a : Int, rfFold ls r a = rfFold ls₂ r a := by
  induction ls with
  | nil =>
    intro ls₂ h r a
    have : ls₂ = [] := by
      cases ls₂ with
      | nil => rfl
      | cons x xs => simp at h
    rw [this]
  | cons l rest ih =>
    intro ls₂ h r a
    cases ls₂ with
    | nil => simp at h
    | cons l₂ rest₂ =>
      simp only [List.map_cons, List.cons.injEq] at h
      have hp : l.get_output_receptive_field r a = l₂.get_output_receptive_field r a := by
        have hk : l.kernel_size = l₂.kernel_size := congrArg Prod.fst h.1
        have hs : l.stride = l₂.stride := congrArg (fun p => p.2.1) h.1
        have hd : l.dilation_rate = l₂.dilation_rate := congrArg (fun p => p.2.2) h.1
        unfold MockLayer.get_output_receptive_field
        rw [hk, hs, hd]
      simp only [rfFold]
      rw [hp, ih rest₂ h.2]

/-- Claim C9: `get_receptive_field` returns
`1 + sum over i of (k_i - 1) * d_i * (product of s_j for j < i)` as the
final receptive field, its `i`-th intermediate entry is the same
expression truncated to the first `i` summands, and the returned pair
depends only on the numeric fields of the layers, never on their names. -/
theorem claim_C9_closed_form (m m₂ : MockModel) (v v₂ : Bool) (i : Nat)
    (hi : i < m.layers.length)
    (hsame : m.layers.map layerNums = m₂.layers.map layerNums) :
    (m.get_receptive_field v).1.1 = closedForm m.layers ∧
      (m.get_receptive_field v).1.2.getD i 0 = closedPartial m.layers (i + 1) ∧
      (m.get_receptive_field v).1 = (m₂.get_receptive_field v₂).1 := by
  refine ⟨?_, ?_, ?_⟩
  · rw [get_receptive_field_eq_rfFold m v]
    show (rfFold m.layers 1 1).1 = closedForm m.layers
    rw [rfFold_rf_closed]
    unfold closedForm closedPartial
    rw [← hornerRF_eq_sum m.layers m.layers.length, List.take_length]
    ring
  · rw [get_receptive_field_eq_rfFold m v]
    show (rfFold m.layers 1 1).2.2.getD i 0 = closedPartial m.layers (i + 1)
    rw [rfFold_rfs_getD m.layers i 1 1 hi, rfFold_rf_closed]
    unfold closedPartial
    rw [hornerRF_eq_sum m.layers (i + 1)]
    ring
  · rw [get_receptive_field_eq_rfFold m v, get_receptive_field_eq_rfFold m₂ v₂,
      rfFold_congr_nums m.layers m₂.layers hsame 1 1]

/-- Witness for claim C9 on a one-layer model, against a model with the
same numeric fields but a different layer name. -/
theorem claim_C9_closed_form_witness :
    0 < (MockModel.mk [MockConv 3 2 1 "a"]).layers.length ∧
      (MockModel.mk [MockConv 3 2 1 "a"]).layers.map layerNums
        = (MockModel.mk [MockConv 3 2 1 "b"]).layers.map layerNums ∧
      ((MockModel.mk [MockConv 3 2 1 "a"]).get_receptive_field false).1.1
        = closedForm (MockModel.mk [MockConv 3 2 1 "a"]).layers ∧
      ((MockModel.mk [MockConv 3 2 1 "a"]).get_receptive_field false).1.2.getD 0 0
        = closedPartial (MockModel.mk [MockConv 3 2 1 "a"]).layers 1 ∧
      ((MockModel.mk [MockConv 3 2 1 "a"]).get_receptive_field false).1
        = ((MockModel.mk [MockConv 3 2 1 "b"]).get_receptive_field true).1 :=
  ⟨by decide, by decide,
    (claim_C9_closed_form (MockModel.mk [MockConv 3 2 1 "a"])
      (MockModel.mk [MockConv 3 2 1 "b"]) false true 0 (by decide) (by decide)).1,
    (claim_C9_closed_form (MockModel.mk [MockConv 3 2 1 "a"])
      (MockModel.mk [MockConv 3 2 1 "b"]) false true 0 (by decide) (by decide)).2.1,
    (claim_C9_closed_form (MockModel.mk [MockConv 3 2 1 "a"])
      (MockModel.mk [MockConv 3 2 1 "b"]) false true 0 (by decide) (by decide)).2.2⟩

theorem rfFold_mono (ls : List MockLayer) :
    ∀ r a : Int,
      (∀ l ∈ ls, 1 ≤ l.kernel_size ∧ 1 ≤ l.stride ∧ 1 ≤ l.dilation_rate) →
      1 ≤ r → 1 ≤ a →
      r ≤ (rfFold ls r a).1 ∧ a ≤ (rfFold ls r a).2.1 ∧
        List.Chain' (fun x y => x ≤ y) (r :: (rfFold ls r a).2.2) ∧
        ∀ x ∈ (rfFold ls r a).2.2, r ≤ x := by
  induction ls with
  | nil =>
    intro r a _ _ _
    refine ⟨le_refl r, le_refl a, ?_, ?_⟩
    · show List.Chain' (fun x y => x ≤ y) [r]
      simp
    · intro x hx
      simp [rfFold] at hx
  | cons l rest ih =>
    intro r a hgood hr ha
    have hl := hgood l (List.mem_cons_self l rest)
    have hrest : ∀ x ∈ rest, 1 ≤ x.kernel_size ∧ 1 ≤ x.stride ∧ 1 ≤ x.dilation_rate :=
      fun x hx => hgood x (List.mem_cons_of_mem l hx)
    have hker : (0 : Int) ≤ (l.kernel_size - 1) * l.dilation_rate * a :=
      mul_nonneg (mul_nonneg (by linarith [hl.1]) (by linarith [hl.2.2])) (by linarith)
    have hr' : r ≤ (l.get_output_receptive_field r a).1 := by
      show r ≤ (l.kernel_size - 1) * l.dilation_rate * a + r
      linarith
    have ha' : a ≤ (l.get_output_receptive_field r a).2 := by
      show a ≤ a * l.stride
      exact le_mul_of_one_le_right (by linarith) hl.2.1
    have h1r : (1 : Int) ≤ (l.get_output_receptive_field r a).1 := le_trans hr hr'
    have h1a : (1 : Int) ≤ (l.get_output_receptive_field r a).2 := le_trans ha ha'
    have ihh := ih (l.get_output_receptive_field r a).1
      (l.get_output_receptive_field r a).2 hrest h1r h1a
    refine ⟨le_trans hr' ihh.1, le_trans ha' ihh.2.1, ?_, ?_⟩
    · show List.Chain' (fun x y => x ≤ y)
        (r :: (l.get_output_receptive_field r a).1
          :: (rfFold rest (l.get_output_receptive_field r a).1
            (l.get_output_receptive_field r a).2).2.2)
      exact List.chain'_cons.mpr ⟨hr', ihh.2.2.1⟩
    · intro x hx
      rw [show (rfFold (l :: rest) r a).2.2
          = (l.get_output_receptive_field r a).1
            :: (rfFold rest (l.get_output_receptive_field r a).1
              (l.get_output_receptive_field r a).2).2.2 from rfl] at hx
      rcases List.mem_cons.mp hx with hx1 | hx2
      · rw [hx1]; exact hr'
      · exact le_trans hr' (ihh.2.2.2 x hx2)

theorem rfFold_append (xs : List MockLayer) :
    ∀ (ys : List MockLayer) (r a : Int),
      rfFold (xs ++ ys) r a
        = ((rfFold ys (rfFold xs r a).1 (rfFold xs r a).2.1).1,
           (rfFold ys (rfFold xs r a).1 (rfFold xs r a).2.1).2.1,
           (rfFold xs r a).2.2
             ++ (rfFold ys (rfFold xs r a).1 (rfFold xs r a).2.1).2.2) := by
  induction xs with
  | nil =>
    intro ys r a
    show rfFold ys r a
      = ((rfFold ys r a).1, (rfFold ys r a).2.1, [] ++ (rfFold ys r a).2.2)
    simp
  | cons x xs ih =>
    intro ys r a
    simp only [List.cons_append, rfFold, List.append_eq]
    rw [ih ys]

theorem rfFold_take_step (ls : List MockLayer)
    (h : ∀ l ∈ ls, 1 ≤ l.kernel_size ∧ 1 ≤ l.stride ∧ 1 ≤ l.dilation_rate)
    (n : Nat) :
    (rfFold (ls.take n) 1 1).1 ≤ (rfFold (ls.take (n + 1)) 1 1).1 ∧
      (rfFold (ls.take n) 1 1).2.1 ≤ (rfFold (ls.take (n + 1)) 1 1).2.1 ∧
      1 ≤ (rfFold (ls.take n) 1 1).2.1 := by
  have htake : ∀ l ∈ ls.take n, 1 ≤ l.kernel_size ∧ 1 ≤ l.stride ∧ 1 ≤ l.dilation_rate :=
    fun l hl => h l (List.take_subset n ls hl)
  have hmono := rfFold_mono (ls.take n) 1 1 htake (le_refl 1) (le_refl 1)
  have h1r : (1 : Int) ≤ (rfFold (ls.take n) 1 1).1 := hmono.1
  have h1a : (1 : Int) ≤ (rfFold (ls.take n) 1 1).2.1 := hmono.2.1
  cases hn : ls[n]? with
  | none =>
    have heq : ls.take (n + 1) = ls.take n := by
      rw [List.take_succ, hn]
      simp
    rw [heq]
    exact ⟨le_refl _, le_refl _, h1a⟩
  | some l =>
    have hl := h l (List.getElem?_mem hn)
    have hts : ls.take (n + 1) = ls.take n ++ [l] := by
      rw [List.take_succ, hn]
      rfl
    rw [hts, rfFold_append (ls.take n) [l] 1 1]
    refine ⟨?_, ?_, h1a⟩
    · show (rfFold (ls.take n) 1 1).1
        ≤ (l.kernel_size - 1) * l.dilation_rate * (rfFold (ls.take n) 1 1).2.1
          + (rfFold (ls.take n) 1 1).1
      have hker : (0 : Int)
          ≤ (l.kernel_size - 1) * l.dilation_rate * (rfFold (ls.take n) 1 1).2.1 :=
        mul_nonneg (mul_nonneg (by linarith [hl.1]) (by linarith [hl.2.2]))
          (by linarith)
      linarith
    · show (rfFold (ls.take n) 1 1).2.1
        ≤ (rfFold (ls.take n) 1 1).2.1 * l.stride
      exact le_mul_of_one_le_right (by linarith) hl.2.1

/-- Claim C10: when every layer has kernel size, stride and dilation rate
at least 1, the fold keeps the receptive field and the accumulated stride
at least 1 and never decreases either across any step, so the returned
list of intermediate receptive fields is non-decreasing and every entry
is at least 1.  The per-step running values after `n` layers are the
values of `rfFold` on the length-`n` prefix of the layer list. -/
theorem claim_C10_monotone (m : MockModel) (v : Bool)
    (h : ∀ l ∈ m.layers, 1 ≤ l.kernel_size ∧ 1 ≤ l.stride ∧ 1 ≤ l.dilation_rate) :
    1 ≤ (m.get_receptive_field v).1.1 ∧
      List.Chain' (fun x y => x ≤ y) (1 :: (m.get_receptive_field v).1.2) ∧
      (∀ x ∈ (m.get_receptive_field v).1.2, 1 ≤ x) ∧
      ∀ n : Nat,
        (rfFold (m.layers.take n) 1 1).1 ≤ (rfFold (m.layers.take (n + 1)) 1 1).1 ∧
          (rfFold (m.layers.take n) 1 1).2.1
            ≤ (rfFold (m.layers.take (n + 1)) 1 1).2.1 ∧
          1 ≤ (rfFold (m.layers.take n) 1 1).2.1 := by
  have hmono := rfFold_mono m.layers 1 1 h (le_refl 1) (le_refl 1)
  have he := get_receptive_field_eq_rfFold m v
  refine ⟨?_, ?_, ?_, fun n => rfFold_take_step m.layers h n⟩
  · rw [he]
    exact hmono.1
  · rw [he]
    exact hmono.2.2.1
  · rw [he]
    exact hmono.2.2.2

/-- Witness for claim C10 on a concrete two-layer model with admissible
parameters. -/
theorem claim_C10_monotone_witness :
    (∀ l ∈ (MockModel.mk [MockConv 3 2 1 "a", MockConv 3 1 1 "b"]).layers,
        1 ≤ l.kernel_size ∧ 1 ≤ l.stride ∧ 1 ≤ l.dilation_rate) ∧
      1 ≤ ((MockModel.mk [MockConv 3 2 1 "a", MockConv 3 1 1 "b"]).get_receptive_field
        false).1.1 :=
  ⟨by decide,
    (claim_C10_monotone (MockModel.mk [MockConv 3 2 1 "a", MockConv 3 1 1 "b"])
      false (by decide)).1⟩
